import Mathlib

/-!
Shallow embedding of the FR_PO_PARSER line-item extraction core
(src/parsers/single_page.py and src/parsers/multi_page.py) and proofs
about the claims of the natural-language specification.

Python strings are modelled as Lean `String` (a structure holding
`data : List Char`); Python list/str operations are translated one by one.
Regular expressions from the source are hand-translated into recursive
matchers that follow Python `re` backtracking semantics (greedy and lazy
quantifiers, leftmost match); each matcher carries a comment quoting the
original pattern.
-/

namespace POParser

/-- Python str.strip and regex \s whitespace: space, tab, newline, return,
vertical tab, form feed. -/
def isPyWs (c : Char) : Bool :=
  c = ' ' || c = '\t' || c = '\n' || c = '\r' || c = '\x0b' || c = '\x0c'

/-- Maximal run of characters satisfying p at the head of the list; returns
(run, rest). Mirrors the greedy consumption of a character class in re. -/
def takeRun (p : Char → Bool) : List Char → List Char × List Char
  | [] => ([], [])
  | c :: rest =>
    if p c then (c :: (takeRun p rest).1, (takeRun p rest).2)
    else ([], c :: rest)

/-- Python str.strip() on a character list. -/
def stripChars (l : List Char) : List Char :=
  ((l.dropWhile isPyWs).reverse.dropWhile isPyWs).reverse

/-- Python str.strip(). -/
def pyStrip (s : String) : String := ⟨stripChars s.data⟩

/-- Python str.lower() (ASCII, which is all the source ever feeds it). -/
def pyLower (s : String) : String := ⟨s.data.map Char.toLower⟩

/-- Line terminators recognised by Python str.splitlines. -/
def isLineBreak (c : Char) : Bool :=
  c = '\n' || c = '\r' || c = '\x0b' || c = '\x0c' ||
  c = '\x1c' || c = '\x1d' || c = '\x1e' || c = '\x85' ||
  c = '\u2028' || c = '\u2029'

/-- Worker for Python str.splitlines: acc holds the current line reversed. -/
def splitlinesGo : List Char → List Char → List String
  | [], acc => if acc.isEmpty then [] else [⟨acc.reverse⟩]
  | '\r' :: '\n' :: rest, acc => (⟨acc.reverse⟩ : String) :: splitlinesGo rest []
  | c :: rest, acc =>
    if isLineBreak c then (⟨acc.reverse⟩ : String) :: splitlinesGo rest []
    else splitlinesGo rest (c :: acc)

/-- Python str.splitlines(). -/
def splitlinesPy (s : String) : List String := splitlinesGo s.data []

/-- Decides whether needle occurs as a contiguous substring of hay
(Python `needle in hay`). -/
def subIn (needle hay : List Char) : Bool :=
  match hay with
  | [] => needle.isEmpty
  | _ :: t => needle.isPrefixOf hay || subIn needle t

/-- Python `needle in hay` on strings. -/
def strContains (hay needle : String) : Bool := subIn needle.data hay.data

/-! Helpers of single_page.py. -/

/-- Characters kept by clean_money: re.sub(r"[^\d\.,]", "", s) keeps digits,
dots and commas. -/
def isMoneyKeep (c : Char) : Bool := c.isDigit || c = '.' || c = ','

/-- clean_money from single_page.py: strip the string, then delete every
character that is not a digit, dot or comma. -/
def clean_money (s : String) : String :=
  ⟨(pyStrip s).data.filter isMoneyKeep⟩

/-- Suffix of the list starting at the first digit, if any; mirrors the scan
of re.search for a pattern that must begin with \d. -/
def firstDigitSuffix : List Char → Option (List Char)
  | [] => none
  | c :: rest => if c.isDigit then some (c :: rest) else firstDigitSuffix rest

/-- Match of QTY_RX = \d+(?:\.\d+)? anchored at a digit: the maximal digit
run, extended by a dot and a second digit run when present. -/
def qtyMatchAt (l : List Char) : List Char :=
  let dr := takeRun Char.isDigit l
  match dr.2 with
  | '.' :: r2 =>
    if (takeRun Char.isDigit r2).1.isEmpty then dr.1
    else dr.1 ++ '.' :: (takeRun Char.isDigit r2).1
  | _ => dr.1

/-- clean_qty from single_page.py: QTY_RX.search(s).group(0), or "" when the
string holds no digit. -/
def clean_qty (s : String) : String :=
  match firstDigitSuffix s.data with
  | none => ""
  | some tail => ⟨qtyMatchAt tail⟩

/-- is_total_like from single_page.py. -/
def is_total_like (s : String) : Bool :=
  let l := pyLower s
  strContains l "subtotal" || strContains l "total" || strContains l "tax" ||
  strContains l "freight" || strContains l "grand total"

/-! Header detection. -/

/-- HEADER_ALIASES from single_page.py, in dict insertion order. -/
def headerAliases : List (String × List String) :=
  [("line", ["line", "line#", "ln", "ln#", "ln no", "line no", "line number"]),
   ("item", ["item", "sku", "item#", "item no", "item number", "product", "code"]),
   ("desc", ["desc", "description", "item description", "prod desc"]),
   ("qty", ["qty", "quantity", "order qty", "ordered", "ord qty"]),
   ("unit", ["unit", "unit price", "price", "u.price", "unit cost", "cost"]),
   ("ext", ["extended", "ext", "ext price", "amount", "line total", "extended price"])]

/-- Lower-case letters and digits, the class kept by normalize_token. -/
def isLowAlnum (c : Char) : Bool := ('a' ≤ c && c ≤ 'z') || c.isDigit

/-- Worker for normalize_token: replace every run of characters outside
[a-z0-9] by a single space (re.sub(r"[^a-z0-9]+", " ", ·)); inBad records
whether the current bad run has already emitted its space. -/
def squashGo : List Char → Bool → List Char
  | [], _ => []
  | c :: rest, inBad =>
    if isLowAlnum c then c :: squashGo rest false
    else if inBad then squashGo rest true
    else ' ' :: squashGo rest true

/-- normalize_token from single_page.py. -/
def normalize_token (t : String) : String :=
  pyStrip ⟨squashGo (pyLower t).data false⟩

/-- Number of alias groups of HEADER_ALIASES with at least one alias occurring
in the given (normalized) line; the hits count of find_header. -/
def headerHits (l : String) : Nat :=
  (headerAliases.filter (fun g => g.2.any (fun a => strContains l a))).length

/-- Worker for re.split(r"\s{2,}", s): tok is the current token reversed,
pend the pending whitespace run reversed.  A run of two or more whitespace
characters is a separator; a single one stays inside the token. -/
def split2Go : List Char → List Char → List Char → List (List Char)
  | [], tok, pend =>
    if 2 ≤ pend.length then [tok.reverse, []] else [(pend ++ tok).reverse]
  | c :: rest, tok, pend =>
    if isPyWs c then split2Go rest tok (c :: pend)
    else if 2 ≤ pend.length then tok.reverse :: split2Go rest [c] []
    else split2Go rest (c :: (pend ++ tok)) []

/-- re.split(r"\s{2,}", s). -/
def split2 (s : String) : List String :=
  (split2Go s.data [] []).map (fun l => (⟨l⟩ : String))

/-- First index of a key in a list, as an Option; mirrors idx_of in
parse_with_columns, whose -1 sentinel becomes none. -/
def idx_of (xs : List String) (k : String) : Option Nat :=
  match xs with
  | [] => none
  | x :: rest => if x = k then some 0 else (idx_of rest k).map (· + 1)

/-- First alias group of headerAliases one of whose aliases occurs in the
normalized token, as in the inner loop of header_columns. -/
def mapToken (t : String) : Option String :=
  match headerAliases.find? (fun g => g.2.any (fun a => strContains t a)) with
  | some g => some g.1
  | none => none

/-- header_columns from single_page.py: split the header line on 2+ spaces,
normalize each token, and map it to its canonical column or keep it. -/
def header_columns (header_line : String) : List String :=
  let toks := ((split2 header_line).filter (fun t => pyStrip t ≠ "")).map normalize_token
  toks.map (fun t => (mapToken t).getD t)

/-- Worker for find_header, carrying the current index. -/
def findHeaderGo : List String → Nat → Option (Nat × List String)
  | [], _ => none
  | raw :: rest, i =>
    let line := pyStrip raw
    if line = "" then findHeaderGo rest (i + 1)
    else if 3 ≤ headerHits (normalize_token line) then some (i, header_columns line)
    else findHeaderGo rest (i + 1)

/-- find_header from single_page.py; the (-1, []) failure result becomes
none. -/
def find_header (lines : List String) : Option (Nat × List String) :=
  findHeaderGo lines 0

/-! MONEY_RX = \$?\s*\d{1,3}(?:,\d{3})*(?:\.\d{2})?, used only through
fullmatch.  After the leading 1-3 digit group the only viable continuations
are comma groups of exactly three digits and a final dot with exactly two
digits, so the backtracking search reduces to the deterministic scan below
(a digit run longer than three, or a comma group other than three digits,
leaves a digit in a position where only a comma, dot or the end may stand). -/

/-- Tail of MONEY_RX after the leading digits: (?:,\d{3})*(?:\.\d{2})? against
the whole remaining input.  A comma group whose digit run is not exactly
three, or any leftover character, fails. -/
def moneyTail : List Char → Bool
  | [] => true
  | ',' :: a :: b :: c :: rest =>
    a.isDigit && b.isDigit && c.isDigit && moneyTail rest
  | '.' :: a :: b :: [] => a.isDigit && b.isDigit
  | _ => false

/-- MONEY_RX.fullmatch on a character list. -/
def moneyFullL (l : List Char) : Bool :=
  let l1 := match l with
    | '$' :: r => r
    | _ => l
  let l2 := l1.dropWhile isPyWs
  let dr := takeRun Char.isDigit l2
  1 ≤ dr.1.length && dr.1.length ≤ 3 && moneyTail dr.2

/-- MONEY_RX.fullmatch(p) is not None, as used in parse_with_columns. -/
def moneyFull (s : String) : Bool := moneyFullL s.data

/-! Row parsing under a detected header (parse_with_columns). -/

/-- Emitted row dict of single_page.py: both strategies build a dict with
exactly the keys line_number, sku, qty, price. -/
structure Row where
  line_number : String
  sku : String
  qty : String
  price : String
deriving Repr, DecidableEq

/-- Dict view of a Row, with the keys in the construction order of the
source; used to state claims about the emitted field set. -/
def rowToDict (r : Row) : List (String × String) :=
  [("line_number", r.line_number), ("sku", r.sku), ("qty", r.qty), ("price", r.price)]

/-- Resolved column value: parts[i] when the column index is resolved
(not -1) and in range, as in the guards `i != -1 and i < len(parts)`. -/
def colVal (parts : List String) : Option Nat → Option String
  | some i => if h : i < parts.length then some (parts.get ⟨i, h⟩) else none
  | none => none

/-- price_src of parse_with_columns: the unit column, else the ext column,
else the last part fully matching MONEY_RX, else the last part. -/
def priceSrc (cols parts : List String) : String :=
  match colVal parts (idx_of cols "unit") with
  | some v => v
  | none =>
    match colVal parts (idx_of cols "ext") with
    | some v => v
    | none =>
      match (parts.filter moneyFull).getLast? with
      | some c => c
      | none => (parts.getLast?).getD ""

/-- qty_src of parse_with_columns: the qty column, else the part before the
last one when at least two parts exist. -/
def qtySrc (cols parts : List String) : String :=
  match colVal parts (idx_of cols "qty") with
  | some v => v
  | none =>
    if 2 ≤ parts.length then (parts.get? (parts.length - 2)).getD "" else ""

/-- item_src of parse_with_columns: the item column, else the desc column,
else the middle parts joined by single spaces and stripped
(parts[1:-2] when more than three parts, else parts[1:-1]). -/
def itemSrc (cols parts : List String) : String :=
  match colVal parts (idx_of cols "item") with
  | some v => v
  | none =>
    match colVal parts (idx_of cols "desc") with
    | some v => v
    | none =>
      let mid := if 3 < parts.length
        then (parts.take (parts.length - 2)).drop 1
        else (parts.take (parts.length - 1)).drop 1
      pyStrip (String.intercalate " " mid)

/-- line_src of parse_with_columns: the line column, else the first part. -/
def lineSrc (cols parts : List String) : String :=
  match colVal parts (idx_of cols "line") with
  | some v => v
  | none => (parts.get? 0).getD ""

/-- Loop body of parse_with_columns after the part split: build the data
dict and emit it only when qty or price is non-empty. -/
def rowFromParts (cols parts : List String) : Option Row :=
  let r : Row :=
    { line_number := ⟨((lineSrc cols parts).data.filter Char.isDigit).take 6⟩,
      sku := itemSrc cols parts,
      qty := clean_qty (qtySrc cols parts),
      price := clean_money (priceSrc cols parts) }
  if r.qty ≠ "" ∨ r.price ≠ "" then some r else none

/-- Part split of a row line: split the stripped line on 2+ spaces, strip
each part and keep the non-empty ones. -/
def lineParts (raw : String) : List String :=
  ((split2 (pyStrip raw)).map pyStrip).filter (fun p => p ≠ "")

/-- Scanning loop of parse_with_columns over the lines below the header:
a blank line is skipped before the first accepted row and stops the scan
after it; a totals-like line stops the scan; a line with fewer than three
parts is skipped; otherwise the classified row is appended when accepted. -/
def pwcGo (cols : List String) : List String → List Row → List Row
  | [], rows => rows
  | raw :: rest, rows =>
    if pyStrip raw = "" then
      if rows ≠ [] then rows else pwcGo cols rest rows
    else if is_total_like raw then rows
    else
      let parts := lineParts raw
      if parts.length < 3 then pwcGo cols rest rows
      else
        match rowFromParts cols parts with
        | some r => pwcGo cols rest (rows ++ [r])
        | none => pwcGo cols rest rows

/-- parse_with_columns from single_page.py. -/
def parse_with_columns (lines : List String) (start_idx : Nat) (cols : List String) : List Row :=
  pwcGo cols (lines.drop (start_idx + 1)) []

/-! Regex fallback (LINE_PATTERNS of single_page.py).  The three patterns are
hand-translated into recursive matchers.  Greedy pieces whose follower class
is disjoint from their own (digit runs followed by \s+, \s+ followed by a
digit or money token, the sku class followed by \s+) are deterministic: any
backtracked shorter match leaves a character the follower rejects.  The two
places where backtracking is observable are kept explicit: a \s+ that
precedes a lazy group [^\d].*? gives back whitespace characters from the
right (longest attempt first), and the lazy group itself grows from the
shortest prefix. -/

/-- Match of \s+ with a follower that rejects whitespace: the maximal run,
required non-empty. -/
def pWs1 (l : List Char) : Option (List Char) :=
  let (w, r) := takeRun isPyWs l
  if w.isEmpty then none else some r

/-- Predicate for \s*$: only whitespace remains. -/
def allWs (l : List Char) : Bool := l.all isPyWs

/-- Match of (\d{1,4}) followed by \s+ in every pattern: the maximal digit
run when its length is between one and four (a longer run leaves a digit
before the required whitespace under every backtracking split). -/
def pLineNo (l : List Char) : Option (List Char × List Char) :=
  let (d, r) := takeRun Char.isDigit l
  if 1 ≤ d.length && d.length ≤ 4 then some (d, r) else none

/-- Match of (\d+(?:\.\d+)?) followed by \s+: maximal digit run and greedy
optional fraction; any shorter backtracked variant leaves a digit or dot
before the required whitespace. -/
def pQty (l : List Char) : Option (List Char × List Char) :=
  let (d, r) := takeRun Char.isDigit l
  if d.isEmpty then none
  else
    match r with
    | '.' :: r2 =>
      let (f, r3) := takeRun Char.isDigit r2
      if f.isEmpty then some (d, r) else some (d ++ '.' :: f, r3)
    | _ => some (d, r)

/-- First character class of the sku group of the second pattern. -/
def isSkuStart (c : Char) : Bool := ('A' ≤ c && c ≤ 'Z') || c.isDigit

/-- Continuation class of the sku group: [A-Z0-9\-_\/]. -/
def isSkuMid (c : Char) : Bool := isSkuStart c || c = '-' || c = '_' || c = '/'

/-- Match of ([A-Z0-9][A-Z0-9\-_\/]+) followed by \s+. -/
def pSku (l : List Char) : Option (List Char × List Char) :=
  match l with
  | [] => none
  | c :: r =>
    if isSkuStart c then
      let (run, r2) := takeRun isSkuMid r
      if 1 ≤ run.length then some (c :: run, r2) else none
    else none

/-- Match of the money token after the optional dollar sign: a digit, a
maximal digit-or-comma run, a dot and two digits; dol is the consumed
dollar prefix, included in the capture. -/
def pMoney2Core (dol l1 : List Char) : Option (List Char × List Char) :=
  match l1 with
  | [] => none
  | c :: r1 =>
    if c.isDigit then
      let run2 := takeRun (fun d => d.isDigit || d = ',') r1
      match run2.2 with
      | '.' :: a :: b :: r3 =>
        if a.isDigit && b.isDigit then
          some (dol ++ c :: (run2.1 ++ '.' :: a :: b :: []), r3)
        else none
      | _ => none
    else none

/-- Match of the money token (\$?\d[\d,]*\.\d{2}): optional dollar, then the
core token.  The token decomposition is unique, so no backtracking arises
inside it (a consumed dollar cannot be re-read as the leading digit). -/
def pMoney2 (l : List Char) : Option (List Char × List Char) :=
  match l with
  | '$' :: r => pMoney2Core ['$'] r
  | _ => pMoney2Core [] l

/-- Continuation of the first pattern after the lazy description group:
\s+(\d+(?:\.\d+)?)\s+(\$?\d[\d,]*\.\d{2})(?:\s+\$?\d[\d,]*\.\d{2})?\s*$,
returning the qty and price captures.  The optional second money token is
tried first (greedy option), the empty alternative second; the acceptance
test is p1OptTail below. -/
def p1OptTail (l : List Char) : Bool :=
  (match pWs1 l with
   | some r5 =>
     match pMoney2 r5 with
     | some pr => allWs pr.2
     | none => false
   | none => false) || allWs l

/-- Continuation of the first pattern after the lazy description group
proper: \s+(\d+(?:\.\d+)?)\s+(\$?\d[\d,]*\.\d{2}) then the optional tail
and \s*$. -/
def p1Cont (l : List Char) : Option (List Char × List Char) :=
  match pWs1 l with
  | none => none
  | some r1 =>
    match pQty r1 with
    | none => none
    | some (q, r2) =>
      match pWs1 r2 with
      | none => none
      | some r3 =>
        match pMoney2 r3 with
        | none => none
        | some (p, r4) => if p1OptTail r4 then some (q, p) else none

/-- Lazy growth of the description group of the first pattern ([^\d].*?):
acc holds the group so far reversed; the continuation is attempted at the
current end first, then the group grows one character (never a newline,
which . does not match). -/
def p1Desc (acc : List Char) : List Char → Option (List Char × List Char × List Char)
  | [] =>
    match p1Cont [] with
    | some qp => some (acc.reverse, qp.1, qp.2)
    | none => none
  | c :: r =>
    match p1Cont (c :: r) with
    | some qp => some (acc.reverse, qp.1, qp.2)
    | none => if c = '\n' then none else p1Desc (c :: acc) r

/-- Start of the description group of the first pattern: its first character
must not be a digit. -/
def p1Body : List Char → Option (List Char × List Char × List Char)
  | [] => none
  | c :: rest => if c.isDigit || c = '\n' then none else p1Desc [c] rest

/-- Backtracking of the \s+ before the lazy group of the first pattern:
the whole whitespace run is consumed first (wsRev holds it reversed); on
failure one whitespace character at a time is given back to the group,
keeping at least one consumed (an empty or singleton wsRev allows no
further giveback). -/
def p1WsBT : List Char → List Char → Option (List Char × List Char × List Char)
  | [], rest => p1Body rest
  | [_], rest => p1Body rest
  | c :: c2 :: w2, rest =>
    match p1Body rest with
    | some res => some res
    | none => p1WsBT (c2 :: w2) (c :: rest)

/-- First pattern of LINE_PATTERNS:
^\s*(\d{1,4})\s+([^\d].*?)\s+(\d+(?:\.\d+)?)\s+(\$?\d[\d,]*\.\d{2})(?:\s+\$?\d[\d,]*\.\d{2})?\s*$
with the groups in order. -/
def matchP1 (l : List Char) : Option (List Char × List Char × List Char × List Char) :=
  let l0 := l.dropWhile isPyWs
  match pLineNo l0 with
  | none => none
  | some (ln, r1) =>
    let (w, r2) := takeRun isPyWs r1
    if w.isEmpty then none
    else
      match p1WsBT w.reverse r2 with
      | none => none
      | some (d, q, p) => some (ln, d, q, p)

/-- Second pattern of LINE_PATTERNS:
^\s*(\d{1,4})\s+([A-Z0-9][A-Z0-9\-_\/]+)\s+(\d+(?:\.\d+)?)\s+(\$?\d[\d,]*\.\d{2})\s*$. -/
def matchP2 (l : List Char) : Option (List Char × List Char × List Char × List Char) :=
  let l0 := l.dropWhile isPyWs
  match pLineNo l0 with
  | none => none
  | some (ln, r1) =>
    match pWs1 r1 with
    | none => none
    | some r2 =>
      match pSku r2 with
      | none => none
      | some (sku, r3) =>
        match pWs1 r3 with
        | none => none
        | some r4 =>
          match pQty r4 with
          | none => none
          | some (q, r5) =>
            match pWs1 r5 with
            | none => none
            | some r6 =>
              match pMoney2 r6 with
              | none => none
              | some (p, r7) => if allWs r7 then some (ln, sku, q, p) else none

/-- Continuation of the third pattern after its lazy description group:
\s+(\$?\d[\d,]*\.\d{2})\s*$, returning the price capture. -/
def p3Cont (l : List Char) : Option (List Char) :=
  match pWs1 l with
  | none => none
  | some r1 =>
    match pMoney2 r1 with
    | none => none
    | some (p, r2) => if allWs r2 then some p else none

/-- Lazy growth of the description group of the third pattern. -/
def p3Desc (acc : List Char) : List Char → Option (List Char × List Char)
  | [] =>
    match p3Cont [] with
    | some p => some (acc.reverse, p)
    | none => none
  | c :: r =>
    match p3Cont (c :: r) with
    | some p => some (acc.reverse, p)
    | none => if c = '\n' then none else p3Desc (c :: acc) r

/-- Start of the description group of the third pattern. -/
def p3Body : List Char → Option (List Char × List Char)
  | [] => none
  | c :: rest => if c.isDigit || c = '\n' then none else p3Desc [c] rest

/-- Backtracking of the \s+ before the lazy group of the third pattern. -/
def p3WsBT : List Char → List Char → Option (List Char × List Char)
  | [], rest => p3Body rest
  | [_], rest => p3Body rest
  | c :: c2 :: w2, rest =>
    match p3Body rest with
    | some res => some res
    | none => p3WsBT (c2 :: w2) (c :: rest)

/-- Third pattern of LINE_PATTERNS:
^\s*(\d{1,4})\s+(\d+(?:\.\d+)?)\s+([^\d].*?)\s+(\$?\d[\d,]*\.\d{2})\s*$,
groups in order (line, qty, description, price). -/
def matchP3 (l : List Char) : Option (List Char × List Char × List Char × List Char) :=
  let l0 := l.dropWhile isPyWs
  match pLineNo l0 with
  | none => none
  | some (ln, r1) =>
    match pWs1 r1 with
    | none => none
    | some r2 =>
      match pQty r2 with
      | none => none
      | some (q, r3) =>
        let (w, r4) := takeRun isPyWs r3
        if w.isEmpty then none
        else
          match p3WsBT w.reverse r4 with
          | none => none
          | some (d, p) => some (ln, q, d, p)

/-- First matching pattern of LINE_PATTERNS, with the four captures in group
order, as used in parse_by_regex (group 2 is always bound to item and group
3 to qty, whatever the pattern). -/
def tryPatterns (l : List Char) : Option (String × String × String × String) :=
  match matchP1 l with
  | some (a, b, c, d) => some (⟨a⟩, ⟨b⟩, ⟨c⟩, ⟨d⟩)
  | none =>
    match matchP2 l with
    | some (a, b, c, d) => some (⟨a⟩, ⟨b⟩, ⟨c⟩, ⟨d⟩)
    | none =>
      match matchP3 l with
      | some (a, b, c, d) => some (⟨a⟩, ⟨b⟩, ⟨c⟩, ⟨d⟩)
      | none => none

/-- Row built by parse_by_regex from the four captures. -/
def rowFromRegex (g1 g2 g3 g4 : String) : Row :=
  { line_number := ⟨g1.data.filter Char.isDigit⟩,
    sku := pyStrip g2,
    qty := clean_qty g3,
    price := clean_money g4 }

/-- parse_by_regex from single_page.py: strip each line, skip blank and
totals-like lines, and emit a row for the first matching pattern. -/
def parse_by_regex (all_lines : List String) : List Row :=
  all_lines.filterMap (fun raw =>
    let line := pyStrip raw
    if line = "" then none
    else if is_total_like line then none
    else (tryPatterns line.data).map (fun g => rowFromRegex g.1 g.2.1 g.2.2.1 g.2.2.2))

/-! Entry points. -/

/-- parse_single_page from single_page.py: header-aware parsing first, the
regex scan of all lines as fallback. -/
def parse_single_page (text : String) : List Row :=
  let lines := splitlinesPy text
  match find_header lines with
  | some hc =>
    let rows := parse_with_columns lines hc.1 hc.2
    if rows ≠ [] then rows else parse_by_regex lines
  | none => parse_by_regex lines

/-- parse_multi_page from multi_page.py: parse each page and concatenate the
rows in page order. -/
def parse_multi_page : List String → List Row
  | [] => []
  | p :: rest => parse_single_page p ++ parse_multi_page rest

/-! Exception-instrumented variants.  Python list subscripts raise IndexError
when out of range; every other operation the parser performs (regex calls,
str methods, dict writes) is total.  The E variants below replace each
subscript of the source with a checked access that surfaces the would-be
exception in an Except value, so that a proof that they always return ok is
a proof that the parser raises no exception. -/

/-- Checked Python subscript xs[i] for a non-negative index. -/
def pyIdxE (xs : List String) (i : Nat) : Except String String :=
  match xs.get? i with
  | some v => .ok v
  | none => .error "IndexError: list index out of range"

/-- Checked Python subscript xs[-1]. -/
def pyLastE (xs : List String) : Except String String :=
  match xs.getLast? with
  | some v => .ok v
  | none => .error "IndexError: list index out of range"

/-- Checked Python subscript xs[0]. -/
def pyHeadE (xs : List String) : Except String String :=
  match xs.get? 0 with
  | some v => .ok v
  | none => .error "IndexError: list index out of range"

/-- priceSrc with checked subscripts. -/
def priceSrcE (cols parts : List String) : Except String String :=
  match colVal parts (idx_of cols "unit") with
  | some v => .ok v
  | none =>
    match colVal parts (idx_of cols "ext") with
    | some v => .ok v
    | none =>
      match (parts.filter moneyFull).getLast? with
      | some c => .ok c
      | none => pyLastE parts

/-- qtySrc with checked subscripts. -/
def qtySrcE (cols parts : List String) : Except String String :=
  match colVal parts (idx_of cols "qty") with
  | some v => .ok v
  | none =>
    if 2 ≤ parts.length then pyIdxE parts (parts.length - 2) else .ok ""

/-- lineSrc with checked subscripts. -/
def lineSrcE (cols parts : List String) : Except String String :=
  match colVal parts (idx_of cols "line") with
  | some v => .ok v
  | none => pyHeadE parts

/-- rowFromParts with checked subscripts (itemSrc performs only slicing,
which never raises in Python). -/
def rowFromPartsE (cols parts : List String) : Except String (Option Row) := do
  let ps ← priceSrcE cols parts
  let qs ← qtySrcE cols parts
  let isrc := itemSrc cols parts
  let ls ← lineSrcE cols parts
  let r : Row :=
    { line_number := ⟨(ls.data.filter Char.isDigit).take 6⟩,
      sku := isrc, qty := clean_qty qs, price := clean_money ps }
  pure (if r.qty ≠ "" ∨ r.price ≠ "" then some r else none)

/-- pwcGo with checked subscripts. -/
def pwcGoE (cols : List String) : List String → List Row → Except String (List Row)
  | [], rows => .ok rows
  | raw :: rest, rows =>
    if pyStrip raw = "" then
      if rows ≠ [] then .ok rows else pwcGoE cols rest rows
    else if is_total_like raw then .ok rows
    else
      let parts := lineParts raw
      if parts.length < 3 then pwcGoE cols rest rows
      else do
        let r? ← rowFromPartsE cols parts
        match r? with
        | some r => pwcGoE cols rest (rows ++ [r])
        | none => pwcGoE cols rest rows

/-- parse_single_page with checked subscripts (parse_by_regex performs no
subscripting: captures of a successful match always exist). -/
def parse_single_pageE (text : String) : Except String (List Row) :=
  let lines := splitlinesPy text
  match find_header lines with
  | some hc => do
    let rows ← pwcGoE hc.2 (lines.drop (hc.1 + 1)) []
    if rows ≠ [] then pure rows else pure (parse_by_regex lines)
  | none => .ok (parse_by_regex lines)

/-- parse_multi_page with checked subscripts. -/
def parse_multi_pageE : List String → Except String (List Row)
  | [] => .ok []
  | p :: rest => do
    let r ← parse_single_pageE p
    let rs ← parse_multi_pageE rest
    pure (r ++ rs)

/-! Specification-side definitions, written from the words of the spec and
used only to state claims against the code. -/

/-- Shape \d+(\.\d+)? claimed for the qty field: a non-empty digit run with
an optional dot and second non-empty digit run, and nothing else. -/
def isQtyShape (s : String) : Bool :=
  let dr := takeRun Char.isDigit s.data
  1 ≤ dr.1.length &&
  (match dr.2 with
   | [] => true
   | '.' :: r2 =>
     1 ≤ (takeRun Char.isDigit r2).1.length && (takeRun Char.isDigit r2).2.isEmpty
   | _ => false)

/-- Worker for wsTokens. -/
def wsTokensGo : List Char → List Char → List String
  | [], acc => if acc.isEmpty then [] else [⟨acc.reverse⟩]
  | c :: rest, acc =>
    if isPyWs c then
      if acc.isEmpty then wsTokensGo rest []
      else (⟨acc.reverse⟩ : String) :: wsTokensGo rest []
    else wsTokensGo rest (c :: acc)

/-- Whitespace-delimited tokens of a line (str.split() in Python); used to
state that a digit run is or is not a standalone token of the line. -/
def wsTokens (s : String) : List String := wsTokensGo s.data []

/-! Helper lemmas. -/

/-- Characters of the run returned by takeRun satisfy the predicate. -/
theorem takeRun_fst_all (p : Char → Bool) :
    ∀ l : List Char, ∀ c ∈ (takeRun p l).1, p c := by
  intro l
  induction l with
  | nil => intro c hc; simp [takeRun] at hc
  | cons a t ih =>
    intro c hc
    by_cases ha : p a
    · simp only [takeRun, ha, if_pos] at hc
      rcases List.mem_cons.mp hc with rfl | hc
      · exact ha
      · exact ih c hc
    · simp [takeRun, ha] at hc

/-- takeRun on a list of p-characters consumes it entirely. -/
theorem takeRun_all (p : Char → Bool) :
    ∀ l : List Char, (∀ c ∈ l, p c) → takeRun p l = (l, []) := by
  intro l
  induction l with
  | nil => intro _; rfl
  | cons a t ih =>
    intro h
    have ha : p a = true := h a (List.mem_cons_self a t)
    simp [takeRun, ha, ih (fun c hc => h c (List.mem_cons_of_mem a hc))]

/-- takeRun stops exactly at the first character refusing p. -/
theorem takeRun_append (p : Char → Bool) (y : Char) (r : List Char)
    (hy : p y = false) :
    ∀ d : List Char, (∀ c ∈ d, p c) → takeRun p (d ++ y :: r) = (d, y :: r) := by
  intro d
  induction d with
  | nil => intro _; simp [takeRun, hy]
  | cons a t ih =>
    intro h
    have ha : p a = true := h a (List.mem_cons_self a t)
    simp [takeRun, ha, ih (fun c hc => h c (List.mem_cons_of_mem a hc))]

/-- Members surviving dropWhile: a member refusing the predicate stays. -/
theorem mem_dropWhile_of_mem (p : Char → Bool) (c : Char) (hc : p c = false) :
    ∀ l : List Char, c ∈ l → c ∈ l.dropWhile p := by
  intro l
  induction l with
  | nil => intro h; simp at h
  | cons a t ih =>
    intro h
    by_cases ha : p a
    · rcases List.mem_cons.mp h with rfl | h
      · rw [ha] at hc; cases hc
      · rw [List.dropWhile_cons_of_pos ha]
        exact ih h
    · rw [List.dropWhile_cons_of_neg ha]
      exact h

/-- A non-whitespace member of a list survives Python strip. -/
theorem mem_stripChars (c : Char) (hc : isPyWs c = false)
    (l : List Char) (h : c ∈ l) : c ∈ stripChars l := by
  unfold stripChars
  rw [List.mem_reverse]
  apply mem_dropWhile_of_mem _ _ hc
  rw [List.mem_reverse]
  exact mem_dropWhile_of_mem _ _ hc _ h

/-- Digits are not Python whitespace. -/
theorem isDigit_not_ws (c : Char) (h : c.isDigit = true) : isPyWs c = false := by
  by_contra hw
  have hw2 : isPyWs c = true := by
    cases hx : isPyWs c
    · exact absurd hx hw
    · rfl
  simp only [isPyWs, Bool.or_eq_true, decide_eq_true_eq] at hw2
  rcases hw2 with ((((rfl | rfl) | rfl) | rfl) | rfl) | rfl <;> simp [Char.isDigit] at h

/-- clean_money keeps every digit of its input, hence a string holding a
digit cleans to a non-empty price. -/
theorem clean_money_ne_empty (s : String) (h : ∃ c ∈ s.data, c.isDigit) :
    clean_money s ≠ "" := by
  obtain ⟨c, hc, hd⟩ := h
  intro he
  have hdata : ((pyStrip s).data.filter isMoneyKeep) = [] := congrArg String.data he
  have hmem : c ∈ (pyStrip s).data.filter isMoneyKeep := by
    apply List.mem_filter.mpr
    constructor
    · exact mem_stripChars c (isDigit_not_ws c hd) _ hc
    · simp [isMoneyKeep, hd]
  rw [hdata] at hmem
  exact List.not_mem_nil c hmem

/-- A successful firstDigitSuffix starts with a digit. -/
theorem firstDigitSuffix_some :
    ∀ l t, firstDigitSuffix l = some t → ∃ c t2, t = c :: t2 ∧ c.isDigit = true := by
  intro l
  induction l with
  | nil => intro t h; simp [firstDigitSuffix] at h
  | cons a r ih =>
    intro t h
    by_cases ha : a.isDigit
    · simp only [firstDigitSuffix, ha, if_pos] at h
      exact ⟨a, r, (Option.some.inj h).symm, ha⟩
    · simp only [firstDigitSuffix, ha, if_neg, Bool.false_eq_true, not_false_iff] at h
      exact ih t h

/-- A list holding a digit has a first digit. -/
theorem firstDigitSuffix_of_any :
    ∀ l : List Char, l.any Char.isDigit = true → ∃ t, firstDigitSuffix l = some t := by
  intro l
  induction l with
  | nil => intro h; simp at h
  | cons a r ih =>
    intro h
    by_cases ha : a.isDigit
    · exact ⟨a :: r, by simp [firstDigitSuffix, ha]⟩
    · simp only [List.any_cons, Bool.or_eq_true] at h
      rcases h with h | h
      · exact absurd h ha
      · obtain ⟨t, ht⟩ := ih h
        exact ⟨t, by simp [firstDigitSuffix, ha, ht]⟩

/-- Unfolding of takeRun on a matching head. -/
theorem takeRun_cons_pos (p : Char → Bool) (c : Char) (t : List Char)
    (hc : p c = true) :
    takeRun p (c :: t) = (c :: (takeRun p t).1, (takeRun p t).2) := by
  simp [takeRun, hc]

/-- The QTY_RX match anchored at a digit is non-empty. -/
theorem qtyMatchAt_ne_nil (c : Char) (t : List Char) (hc : c.isDigit = true) :
    qtyMatchAt (c :: t) ≠ [] := by
  unfold qtyMatchAt
  rw [takeRun_cons_pos _ _ _ hc]
  dsimp only
  split
  · split <;> simp
  · simp

/-- The QTY_RX match anchored at a digit has the shape \d+(\.\d+)?. -/
theorem qtyMatchAt_shape (c : Char) (t : List Char) (hc : c.isDigit = true) :
    isQtyShape ⟨qtyMatchAt (c :: t)⟩ = true := by
  have hdall : ∀ x ∈ (takeRun Char.isDigit t).1, Char.isDigit x :=
    takeRun_fst_all Char.isDigit t
  have hcd : ∀ x ∈ c :: (takeRun Char.isDigit t).1, Char.isDigit x := by
    intro x hx
    rcases List.mem_cons.mp hx with rfl | hx
    · exact hc
    · exact hdall x hx
  unfold qtyMatchAt
  rw [takeRun_cons_pos _ _ _ hc]
  dsimp only
  split
  · rename_i r2 heq
    by_cases hf : (takeRun Char.isDigit r2).1.isEmpty
    · simp only [hf, if_pos, isQtyShape,
        takeRun_all Char.isDigit (c :: (takeRun Char.isDigit t).1) hcd]
      simp
    · simp only [hf, Bool.false_eq_true, not_false_iff, if_neg]
      have hfall : ∀ x ∈ (takeRun Char.isDigit r2).1, Char.isDigit x :=
        takeRun_fst_all Char.isDigit r2
      have hdot : Char.isDigit '.' = false := by decide
      have hsplit :
          (c :: (takeRun Char.isDigit t).1) ++ '.' :: (takeRun Char.isDigit r2).1 =
            c :: ((takeRun Char.isDigit t).1 ++ '.' :: (takeRun Char.isDigit r2).1) := by
        simp
      simp only [isQtyShape, ← hsplit,
        takeRun_append Char.isDigit '.' (takeRun Char.isDigit r2).1 hdot _ hcd,
        takeRun_all Char.isDigit (takeRun Char.isDigit r2).1 hfall]
      have hfe : (takeRun Char.isDigit r2).1 ≠ [] := by
        intro hfe
        rw [hfe] at hf
        simp at hf
      simp only [List.length_cons, List.isEmpty_nil, Bool.and_eq_true, decide_eq_true_eq]
      refine ⟨by omega, ?_⟩
      cases hcf : (takeRun Char.isDigit r2).1 with
      | nil => exact absurd hcf hfe
      | cons _ _ => simp [hcf]
  · simp only [isQtyShape,
      takeRun_all Char.isDigit (c :: (takeRun Char.isDigit t).1) hcd]
    simp

/-- The qty field produced by clean_qty is empty or a decimal numeral. -/
theorem clean_qty_shape (s : String) :
    clean_qty s = "" ∨ isQtyShape (clean_qty s) = true := by
  unfold clean_qty
  cases hfd : firstDigitSuffix s.data with
  | none => exact Or.inl rfl
  | some tail =>
    obtain ⟨c, t2, rfl, hc⟩ := firstDigitSuffix_some _ _ hfd
    exact Or.inr (qtyMatchAt_shape c t2 hc)

/-- clean_qty of a string holding a digit is non-empty. -/
theorem clean_qty_ne_empty (s : String) (h : s.data.any Char.isDigit = true) :
    clean_qty s ≠ "" := by
  unfold clean_qty
  obtain ⟨t, ht⟩ := firstDigitSuffix_of_any _ h
  rw [ht]
  obtain ⟨c, t2, rfl, hc⟩ := firstDigitSuffix_some _ _ ht
  intro he
  exact qtyMatchAt_ne_nil c t2 hc (congrArg String.data he)

/-- Fields of an accepted column-strategy row, and the acceptance guard. -/
theorem rowFromParts_spec (cols parts : List String) (r : Row)
    (h : rowFromParts cols parts = some r) :
    r.qty = clean_qty (qtySrc cols parts) ∧
    r.price = clean_money (priceSrc cols parts) ∧
    (r.qty ≠ "" ∨ r.price ≠ "") := by
  simp only [rowFromParts] at h
  split at h
  · rename_i hcond
    cases h
    exact ⟨rfl, rfl, hcond⟩
  · cases h

/-- Rows produced by the column-strategy scanning loop are the incoming ones
or accepted classifications of some part list. -/
theorem mem_pwcGo (cols : List String) (r : Row) :
    ∀ (ls : List String) (rows : List Row), r ∈ pwcGo cols ls rows →
      r ∈ rows ∨ ∃ parts, rowFromParts cols parts = some r := by
  intro ls
  induction ls with
  | nil =>
    intro rows h
    exact Or.inl h
  | cons raw rest ih =>
    intro rows h
    simp only [pwcGo] at h
    split at h
    · split at h
      · exact Or.inl h
      · exact ih rows h
    · split at h
      · exact Or.inl h
      · split at h
        · exact ih rows h
        · split at h
          · rename_i r2 hr2
            rcases ih _ h with hmem | hex
            · rcases List.mem_append.mp hmem with hmem | hmem
              · exact Or.inl hmem
              · rcases List.mem_singleton.mp hmem with rfl
                exact Or.inr ⟨lineParts raw, hr2⟩
            · exact Or.inr hex
          · exact ih rows h

/-- Rows produced by the regex fallback come from a successful pattern match
on some line. -/
theorem mem_pbr (ls : List String) (r : Row) (h : r ∈ parse_by_regex ls) :
    ∃ l g1 g2 g3 g4, tryPatterns l = some (g1, g2, g3, g4) ∧
      r = rowFromRegex g1 g2 g3 g4 := by
  unfold parse_by_regex at h
  rw [List.mem_filterMap] at h
  obtain ⟨raw, _, hf⟩ := h
  dsimp only at hf
  split at hf
  · cases hf
  · split at hf
    · cases hf
    · rw [Option.map_eq_some'] at hf
      obtain ⟨g, hg, hr⟩ := hf
      exact ⟨(pyStrip raw).data, g.1, g.2.1, g.2.2.1, g.2.2.2, hg, hr.symm⟩

/-- Every row of parse_single_page is an accepted column classification or a
regex-fallback row. -/
theorem mem_pssp (text : String) (r : Row) (h : r ∈ parse_single_page text) :
    (∃ cols parts, rowFromParts cols parts = some r) ∨
    (∃ l g1 g2 g3 g4, tryPatterns l = some (g1, g2, g3, g4) ∧
      r = rowFromRegex g1 g2 g3 g4) := by
  unfold parse_single_page at h
  dsimp only at h
  split at h
  · split at h
    · rename_i hne
      unfold parse_with_columns at h
      rcases mem_pwcGo _ r _ _ h with hmem | hex
      · exact absurd hmem (List.not_mem_nil r)
      · exact Or.inl (by
          obtain ⟨parts, hp⟩ := hex
          exact ⟨_, parts, hp⟩)
    · exact Or.inr (mem_pbr _ r h)
  · exact Or.inr (mem_pbr _ r h)

/-- A successful core money-token match captures at least one digit. -/
theorem pMoney2Core_digit (dol l1 cap rest : List Char)
    (h : pMoney2Core dol l1 = some (cap, rest)) : ∃ c ∈ cap, c.isDigit = true := by
  unfold pMoney2Core at h
  split at h
  · cases h
  · rename_i c r1
    split at h
    · rename_i hc
      dsimp only at h
      split at h
      · split at h
        · cases h
          exact ⟨c, List.mem_append_right _ (List.mem_cons_self _ _), hc⟩
        · cases h
      · cases h
    · cases h

/-- A successful money-token match captures at least one digit. -/
theorem pMoney2_digit (l cap rest : List Char)
    (h : pMoney2 l = some (cap, rest)) : ∃ c ∈ cap, c.isDigit = true := by
  unfold pMoney2 at h
  split at h
  · exact pMoney2Core_digit _ _ _ _ h
  · exact pMoney2Core_digit _ _ _ _ h

/-- The price capture of the first-pattern continuation holds a digit. -/
theorem p1Cont_digit (l q p : List Char) (h : p1Cont l = some (q, p)) :
    ∃ c ∈ p, c.isDigit = true := by
  unfold p1Cont at h
  split at h
  · cases h
  · split at h
    · cases h
    · split at h
      · cases h
      · split at h
        · cases h
        · rename_i p0 r4 hp0
          split at h
          · cases h
            exact pMoney2_digit _ _ _ hp0
          · cases h

/-- The price capture of the lazy description loop holds a digit. -/
theorem p1Desc_digit (d q p : List Char) :
    ∀ (rest acc : List Char), p1Desc acc rest = some (d, q, p) →
      ∃ c ∈ p, c.isDigit = true := by
  intro rest
  induction rest with
  | nil =>
    intro acc h
    rw [p1Desc] at h
    split at h
    · rename_i qp hqp
      cases h
      exact p1Cont_digit _ _ _ hqp
    · cases h
  | cons c0 r ih =>
    intro acc h
    rw [p1Desc] at h
    split at h
    · rename_i qp hqp
      cases h
      exact p1Cont_digit _ _ _ hqp
    · split at h
      · cases h
      · exact ih _ h

/-- The price capture of the first-pattern group start holds a digit. -/
theorem p1Body_digit (l d q p : List Char) (h : p1Body l = some (d, q, p)) :
    ∃ c ∈ p, c.isDigit = true := by
  unfold p1Body at h
  split at h
  · cases h
  · split at h
    · cases h
    · exact p1Desc_digit _ _ _ _ _ h

/-- The price capture of the whitespace-backtracking loop holds a digit. -/
theorem p1WsBT_digit (d q p : List Char) :
    ∀ (wsRev rest : List Char), p1WsBT wsRev rest = some (d, q, p) →
      ∃ c ∈ p, c.isDigit = true := by
  intro wsRev
  induction wsRev with
  | nil =>
    intro rest h
    rw [p1WsBT] at h
    exact p1Body_digit _ _ _ _ h
  | cons c0 w ih =>
    intro rest h
    cases w with
    | nil =>
      rw [p1WsBT] at h
      exact p1Body_digit _ _ _ _ h
    | cons c2 w2 =>
      rw [p1WsBT] at h
      split at h
      · rename_i res hres
        cases h
        exact p1Body_digit _ _ _ _ hres
      · exact ih _ h

/-- The price capture of the first pattern holds a digit. -/
theorem matchP1_digit (l g1 g2 g3 g4 : List Char)
    (h : matchP1 l = some (g1, g2, g3, g4)) : ∃ c ∈ g4, c.isDigit = true := by
  unfold matchP1 at h
  dsimp only at h
  split at h
  · cases h
  · split at h
    · cases h
    · split at h
      · cases h
      · rename_i dqp hd
        cases h
        exact p1WsBT_digit _ _ _ _ _ hd

/-- The price capture of the second pattern holds a digit. -/
theorem matchP2_digit (l g1 g2 g3 g4 : List Char)
    (h : matchP2 l = some (g1, g2, g3, g4)) : ∃ c ∈ g4, c.isDigit = true := by
  unfold matchP2 at h
  dsimp only at h
  split at h
  · cases h
  · split at h
    · cases h
    · split at h
      · cases h
      · split at h
        · cases h
        · split at h
          · cases h
          · split at h
            · cases h
            · split at h
              · cases h
              · rename_i p0 r7 hp0
                split at h
                · cases h
                  exact pMoney2_digit _ _ _ hp0
                · cases h

/-- The price capture of the third-pattern continuation holds a digit. -/
theorem p3Cont_digit (l p : List Char) (h : p3Cont l = some p) :
    ∃ c ∈ p, c.isDigit = true := by
  unfold p3Cont at h
  split at h
  · cases h
  · split at h
    · cases h
    · rename_i p0 r2 hp0
      split at h
      · cases h
        exact pMoney2_digit _ _ _ hp0
      · cases h

/-- The price capture of the third-pattern lazy loop holds a digit. -/
theorem p3Desc_digit (d p : List Char) :
    ∀ (rest acc : List Char), p3Desc acc rest = some (d, p) →
      ∃ c ∈ p, c.isDigit = true := by
  intro rest
  induction rest with
  | nil =>
    intro acc h
    rw [p3Desc] at h
    split at h
    · rename_i p0 hp0
      cases h
      exact p3Cont_digit _ _ hp0
    · cases h
  | cons c0 r ih =>
    intro acc h
    rw [p3Desc] at h
    split at h
    · rename_i p0 hp0
      cases h
      exact p3Cont_digit _ _ hp0
    · split at h
      · cases h
      · exact ih _ h

/-- The price capture of the third-pattern group start holds a digit. -/
theorem p3Body_digit (l d p : List Char) (h : p3Body l = some (d, p)) :
    ∃ c ∈ p, c.isDigit = true := by
  unfold p3Body at h
  split at h
  · cases h
  · split at h
    · cases h
    · exact p3Desc_digit _ _ _ _ h

/-- The price capture of the third-pattern whitespace backtracking holds a
digit. -/
theorem p3WsBT_digit (d p : List Char) :
    ∀ (wsRev rest : List Char), p3WsBT wsRev rest = some (d, p) →
      ∃ c ∈ p, c.isDigit = true := by
  intro wsRev
  induction wsRev with
  | nil =>
    intro rest h
    rw [p3WsBT] at h
    exact p3Body_digit _ _ _ h
  | cons c0 w ih =>
    intro rest h
    cases w with
    | nil =>
      rw [p3WsBT] at h
      exact p3Body_digit _ _ _ h
    | cons c2 w2 =>
      rw [p3WsBT] at h
      split at h
      · rename_i res hres
        cases h
        exact p3Body_digit _ _ _ hres
      · exact ih _ h

/-- The price capture of the third pattern holds a digit. -/
theorem matchP3_digit (l g1 g2 g3 g4 : List Char)
    (h : matchP3 l = some (g1, g2, g3, g4)) : ∃ c ∈ g4, c.isDigit = true := by
  unfold matchP3 at h
  dsimp only at h
  split at h
  · cases h
  · split at h
    · cases h
    · split at h
      · cases h
      · split at h
        · cases h
        · split at h
          · cases h
          · rename_i dp hd
            cases h
            exact p3WsBT_digit _ _ _ _ hd

/-- The group-4 capture of any matching pattern holds a digit. -/
theorem tryPatterns_digit (l : List Char) (g1 g2 g3 g4 : String)
    (h : tryPatterns l = some (g1, g2, g3, g4)) :
    ∃ c ∈ g4.data, c.isDigit = true := by
  unfold tryPatterns at h
  split at h
  · rename_i a b c d hm
    cases h
    exact matchP1_digit _ _ _ _ _ hm
  · split at h
    · rename_i a b c d hm
      cases h
      exact matchP2_digit _ _ _ _ _ hm
    · split at h
      · rename_i a b c d hm
        cases h
        exact matchP3_digit _ _ _ _ _ hm
      · cases h

/-- Characterization of the header scan: a found header is the first
non-blank line whose normalized text hits at least three alias groups. -/
theorem findHeaderGo_spec :
    ∀ (ls : List String) (n i : Nat) (cols : List String),
      findHeaderGo ls n = some (i, cols) →
      ∃ k, i = n + k ∧
        (∃ raw, ls.get? k = some raw ∧ pyStrip raw ≠ "" ∧
          3 ≤ headerHits (normalize_token (pyStrip raw)) ∧
          cols = header_columns (pyStrip raw)) ∧
        ∀ j raw2, j < k → ls.get? j = some raw2 →
          (pyStrip raw2 = "" ∨ headerHits (normalize_token (pyStrip raw2)) < 3) := by
  intro ls
  induction ls with
  | nil =>
    intro n i cols h
    simp [findHeaderGo] at h
  | cons raw rest ih =>
    intro n i cols h
    rw [findHeaderGo] at h
    split at h
    · rename_i hblank
      obtain ⟨k, hk, ⟨raw0, hg, hne, hh, hc⟩, hmin⟩ := ih (n + 1) i cols h
      refine ⟨k + 1, by omega, ⟨raw0, by simpa using hg, hne, hh, hc⟩, ?_⟩
      intro j raw2 hj hget
      cases j with
      | zero =>
        left
        have hre : raw = raw2 := by simpa using hget
        rw [← hre]
        exact hblank
      | succ j2 =>
        exact hmin j2 raw2 (by omega) (by simpa using hget)
    · split at h
      · rename_i hblank hhits
        cases h
        refine ⟨0, by omega, ⟨raw, rfl, hblank, hhits, rfl⟩, ?_⟩
        intro j raw2 hj hget
        omega
      · rename_i hblank hhits
        obtain ⟨k, hk, ⟨raw0, hg, hne, hh, hc⟩, hmin⟩ := ih (n + 1) i cols h
        refine ⟨k + 1, by omega, ⟨raw0, by simpa using hg, hne, hh, hc⟩, ?_⟩
        intro j raw2 hj hget
        cases j with
        | zero =>
          right
          have hre : raw = raw2 := by simpa using hget
          rw [← hre]
          omega
        | succ j2 =>
          exact hmin j2 raw2 (by omega) (by simpa using hget)

/-- priceSrcE never errors on a non-empty part list, and agrees with
priceSrc. -/
theorem priceSrcE_ok (cols parts : List String) (h : parts ≠ []) :
    priceSrcE cols parts = .ok (priceSrc cols parts) := by
  cases h1 : colVal parts (idx_of cols "unit") with
  | some v => simp [priceSrcE, priceSrc, h1]
  | none =>
    cases h2 : colVal parts (idx_of cols "ext") with
    | some v => simp [priceSrcE, priceSrc, h1, h2]
    | none =>
      cases h3 : (parts.filter moneyFull).getLast? with
      | some c => simp [priceSrcE, priceSrc, h1, h2, h3]
      | none =>
        cases h4 : parts.getLast? with
        | none => exact absurd (List.getLast?_eq_none_iff.mp h4) h
        | some v => simp [priceSrcE, priceSrc, pyLastE, h1, h2, h3, h4]

/-- qtySrcE never errors, and agrees with qtySrc. -/
theorem qtySrcE_ok (cols parts : List String) :
    qtySrcE cols parts = .ok (qtySrc cols parts) := by
  cases h1 : colVal parts (idx_of cols "qty") with
  | some v => simp [qtySrcE, qtySrc, h1]
  | none =>
    by_cases h2 : 2 ≤ parts.length
    · cases hg : parts.get? (parts.length - 2) with
      | none =>
        rw [List.get?_eq_none] at hg
        omega
      | some v =>
        rw [List.get?_eq_getElem?] at hg
        simp [qtySrcE, qtySrc, h1, h2, pyIdxE, hg]
    · simp [qtySrcE, qtySrc, h1, h2]

/-- lineSrcE never errors on a non-empty part list, and agrees with
lineSrc. -/
theorem lineSrcE_ok (cols parts : List String) (h : parts ≠ []) :
    lineSrcE cols parts = .ok (lineSrc cols parts) := by
  cases h1 : colVal parts (idx_of cols "line") with
  | some v => simp [lineSrcE, lineSrc, h1]
  | none =>
    cases parts with
    | nil => exact absurd rfl h
    | cons a t => simp [lineSrcE, lineSrc, h1, pyHeadE]

/-- The instrumented row classifier never errors on a non-empty part list,
and agrees with rowFromParts. -/
theorem rowFromPartsE_ok (cols parts : List String) (h : parts ≠ []) :
    rowFromPartsE cols parts = .ok (rowFromParts cols parts) := by
  unfold rowFromPartsE rowFromParts
  rw [priceSrcE_ok cols parts h, qtySrcE_ok cols parts, lineSrcE_ok cols parts h]
  rfl

/-- The instrumented scanning loop never errors, and agrees with pwcGo. -/
theorem pwcGoE_ok (cols : List String) :
    ∀ (ls : List String) (rows : List Row),
      pwcGoE cols ls rows = .ok (pwcGo cols ls rows) := by
  intro ls
  induction ls with
  | nil => intro rows; rfl
  | cons raw rest ih =>
    intro rows
    rw [pwcGoE, pwcGo]
    by_cases h1 : pyStrip raw = ""
    · by_cases h2 : rows ≠ [] <;> simp [h1, h2, ih]
    · by_cases h3 : is_total_like raw
      · simp [h1, h3]
      · by_cases h4 : (lineParts raw).length < 3
        · simp [h1, h3, h4, ih]
        · have hne : lineParts raw ≠ [] := by
            intro he
            rw [he] at h4
            simp at h4
          simp only [h1, h3, h4, if_neg, if_pos, Bool.false_eq_true, not_false_iff]
          rw [rowFromPartsE_ok cols _ hne]
          cases hr : rowFromParts cols (lineParts raw) with
          | some r => simp [hr, ih, Except.bind, bind]
          | none => simp [hr, ih, Except.bind, bind]

/-- The instrumented single-page parser never errors, and agrees with
parse_single_page. -/
theorem parse_single_pageE_ok (text : String) :
    parse_single_pageE text = .ok (parse_single_page text) := by
  unfold parse_single_pageE parse_single_page parse_with_columns
  dsimp only
  cases hf : find_header (splitlinesPy text) with
  | none => rfl
  | some hc =>
    dsimp only
    rw [pwcGoE_ok]
    by_cases hr : pwcGo hc.2 ((splitlinesPy text).drop (hc.1 + 1)) [] ≠ [] <;>
      simp [hr, Except.bind, bind, pure, Except.pure]

/-- The instrumented multi-page parser never errors, and agrees with
parse_multi_page. -/
theorem parse_multi_pageE_ok :
    ∀ pages : List String, parse_multi_pageE pages = .ok (parse_multi_page pages) := by
  intro pages
  induction pages with
  | nil => rfl
  | cons p rest ih =>
    rw [parse_multi_pageE, parse_multi_page, parse_single_pageE_ok, ih]
    rfl


/-! Claim theorems. -/

/-- Claim C1, counterexample: on a line whose money tokens are $5.00 and
$50.00 (in that order), the column strategy emits price "5.00" from the
resolved unit column, not the value "50.00" of the last money token. -/
theorem claim_C1_counterexample :
    (parse_single_page
        "Item  Description  Qty  Unit Price  Amount\n1  Widget A  10  $5.00  $50.00").map
        Row.price = ["5.00"] ∧
    ((lineParts "1  Widget A  10  $5.00  $50.00").filter moneyFull).getLast? = some "$50.00" ∧
    clean_money "$50.00" = "50.00" ∧
    ("5.00" : String) ≠ "50.00" := by
  refine ⟨rfl, rfl, rfl, by decide⟩

/-- Claim C1 as amended: only when the header resolves neither a unit-price
nor an extension column does the column strategy anchor the emitted price to
the last part that is entirely a money token; emitted rows carry no
extension field at all (their dict has only line_number, sku, qty, price). -/
theorem claim_C1_amended (cols parts : List String) (r : Row) (m : String)
    (h1 : idx_of cols "unit" = none) (h2 : idx_of cols "ext" = none)
    (h3 : (parts.filter moneyFull).getLast? = some m)
    (h4 : rowFromParts cols parts = some r) :
    r.price = clean_money m := by
  have hp := (rowFromParts_spec cols parts r h4).2.1
  rw [hp]
  unfold priceSrc
  simp [colVal, h1, h2, h3]

/-- Witness for C1 as amended, on a header with no unit and no ext column. -/
theorem claim_C1_witness :
    ∃ r, rowFromParts ["line", "item", "desc", "qty"]
        ["1", "ABC", "Widget", "5", "$9.99"] = some r ∧
      r.price = clean_money "$9.99" := by
  refine ⟨⟨"1", "ABC", "5", "9.99"⟩, by decide, ?_⟩
  exact claim_C1_amended ["line", "item", "desc", "qty"]
    ["1", "ABC", "Widget", "5", "$9.99"] ⟨"1", "ABC", "5", "9.99"⟩ "$9.99"
    (by decide) (by decide) (by decide) (by decide)

/-- Claim C2: every emitted row has sku, qty or price non-empty (the column
strategy only accepts rows with qty or price non-empty; every regex-fallback
row has a non-empty price because the matched money token holds a digit that
clean_money keeps). -/
theorem claim_C2_invariant (text : String) (r : Row)
    (h : r ∈ parse_single_page text) :
    r.sku ≠ "" ∨ r.qty ≠ "" ∨ r.price ≠ "" := by
  rcases mem_pssp text r h with ⟨cols, parts, hr⟩ | ⟨l, g1, g2, g3, g4, hg, hr⟩
  · rcases (rowFromParts_spec cols parts r hr).2.2 with hq | hp
    · exact Or.inr (Or.inl hq)
    · exact Or.inr (Or.inr hp)
  · right
    right
    rw [hr]
    exact clean_money_ne_empty g4 (tryPatterns_digit l g1 g2 g3 g4 hg)

/-- Witness for C2 at a concrete page and row. -/
theorem claim_C2_witness :
    (⟨"1", "WIDGET-A", "10", "5.00"⟩ : Row) ∈ parse_single_page "1 WIDGET-A 10 $5.00" ∧
    ((⟨"1", "WIDGET-A", "10", "5.00"⟩ : Row).sku ≠ "" ∨
      (⟨"1", "WIDGET-A", "10", "5.00"⟩ : Row).qty ≠ "" ∨
      (⟨"1", "WIDGET-A", "10", "5.00"⟩ : Row).price ≠ "") :=
  ⟨by decide, claim_C2_invariant "1 WIDGET-A 10 $5.00"
    ⟨"1", "WIDGET-A", "10", "5.00"⟩ (by decide)⟩

/-- Claim C3, counterexample: clean_money does not negate a parenthesized
amount ("(12.34)" cleans to "12.34", not "-12.34") and keeps thousands
separators ("$1,234.56" cleans to "1,234.56"). -/
theorem claim_C3_counterexample :
    clean_money "(12.34)" = "12.34" ∧ clean_money "(12.34)" ≠ "-12.34" ∧
    clean_money "$1,234.56" = "1,234.56" := by
  refine ⟨rfl, by decide, rfl⟩

/-- Claim C3 as amended: normalization deletes every character other than
digits, dots and commas (currency symbols, spaces, signs and parentheses);
thousands separators are kept and a parenthesized amount loses its
parentheses without becoming negative. -/
theorem claim_C3_amended :
    (∀ s : String, ∀ c ∈ (clean_money s).data,
      c.isDigit = true ∨ c = '.' ∨ c = ',') ∧
    clean_money "(12.34)" = "12.34" ∧ clean_money "$1,234.56" = "1,234.56" := by
  refine ⟨?_, rfl, rfl⟩
  intro s c hc
  have hk := (List.mem_filter.mp hc).2
  simp only [isMoneyKeep, Bool.or_eq_true, decide_eq_true_eq] at hk
  tauto

/-- Witness for C3 as amended at a concrete character. -/
theorem claim_C3_witness :
    '1' ∈ (clean_money "(12.34)").data ∧
    ('1'.isDigit = true ∨ '1' = '.' ∨ '1' = ',') :=
  ⟨by decide, claim_C3_amended.1 "(12.34)" '1' (by decide)⟩

/-- Claim C4, counterexample: a line containing the hint "qty" is not taken
as header, because find_header requires hits from at least three alias
groups, not one. -/
theorem claim_C4_counterexample :
    find_header ["Qty"] = none ∧
    strContains (normalize_token "Qty") "qty" = true := by
  exact ⟨rfl, rfl⟩

/-- Claim C4 as amended: the header is the first non-blank line whose
normalized text hits at least three of the six alias groups; when no such
line exists, parse_single_page scans every line from line 0 with the regex
fallback and never fails. -/
theorem claim_C4_amended :
    (∀ text : String, find_header (splitlinesPy text) = none →
      parse_single_page text = parse_by_regex (splitlinesPy text)) ∧
    (∀ (lines : List String) (i : Nat) (cols : List String),
      find_header lines = some (i, cols) →
      (∃ raw, lines.get? i = some raw ∧ pyStrip raw ≠ "" ∧
        3 ≤ headerHits (normalize_token (pyStrip raw))) ∧
      ∀ j raw2, j < i → lines.get? j = some raw2 →
        (pyStrip raw2 = "" ∨ headerHits (normalize_token (pyStrip raw2)) < 3)) := by
  constructor
  · intro text hf
    simp only [parse_single_page, hf]
  · intro lines i cols hf
    obtain ⟨k, hk, ⟨raw, hg, hne, hh, _⟩, hmin⟩ := findHeaderGo_spec lines 0 i cols hf
    have hik : i = k := by omega
    subst hik
    exact ⟨⟨raw, hg, hne, hh⟩, hmin⟩

/-- Witness for C4 as amended: a page whose header is at index 2, below a
blank line and a hitless line. -/
theorem claim_C4_witness :
    (∃ raw, (["", "Note", "Item  Description  Qty  Unit Price"] : List String).get? 2 =
        some raw ∧ pyStrip raw ≠ "" ∧
        3 ≤ headerHits (normalize_token (pyStrip raw))) ∧
    ∀ j raw2, j < 2 →
      (["", "Note", "Item  Description  Qty  Unit Price"] : List String).get? j = some raw2 →
      (pyStrip raw2 = "" ∨ headerHits (normalize_token (pyStrip raw2)) < 3) :=
  claim_C4_amended.2 _ 2 ["item", "desc", "qty", "unit"] (by decide)

/-- Claim C5 as amended: below the header, a blank line before any accepted
row is skipped; once at least one row has been accepted, scanning stops at
the first blank line as well as at totals-like lines. -/
theorem claim_C5_amended (cols : List String) (s : String) (rest : List String)
    (rows : List Row) (hblank : pyStrip s = "") :
    (rows = [] → pwcGo cols (s :: rest) rows = pwcGo cols rest rows) ∧
    (rows ≠ [] → pwcGo cols (s :: rest) rows = rows) := by
  constructor
  · intro hr
    rw [pwcGo]
    simp [hblank, hr]
  · intro hr
    rw [pwcGo]
    simp [hblank, hr]

/-- Claim C5, counterexample: after one accepted row, a single blank line
stops the scan even though it is not totals-like, dropping a following line
that would have been accepted. -/
theorem claim_C5_counterexample :
    parse_single_page
        "Item  Description  Qty  Unit Price\n1  WidgetA  10  $5.00\n\n2  WidgetB  20  $6.00" =
      [⟨"1", "1", "10", "5.00"⟩] ∧
    is_total_like "" = false ∧
    rowFromParts ["item", "desc", "qty", "unit"] (lineParts "2  WidgetB  20  $6.00") =
      some ⟨"2", "2", "20", "6.00"⟩ := by
  refine ⟨rfl, rfl, rfl⟩

/-- Witness for C5 as amended: a blank line after one accepted row returns
the accepted rows unchanged, ignoring the rest. -/
theorem claim_C5_witness :
    pwcGo ["item", "desc", "qty", "unit"] ["", "2  WidgetB  20  $6.00"]
        [⟨"1", "1", "10", "5.00"⟩] = [⟨"1", "1", "10", "5.00"⟩] :=
  (claim_C5_amended _ "" _ _ (by decide)).2 (by decide)

/-- Claim C6, counterexample: the qty "500" of the emitted row occurs in the
candidate line only embedded inside the word "Case500E"; it is not a
whitespace-delimited token of the line. -/
theorem claim_C6_counterexample :
    parse_single_page "Item  Description  Qty  Unit Price\n1001  Widget A  Case500E  $5.00" =
      [⟨"1001", "1001", "500", "5.00"⟩] ∧
    ("500" ∈ wsTokens "1001  Widget A  Case500E  $5.00" → False) ∧
    strContains "1001  Widget A  Case500E  $5.00" "Case500E" = true := by
  refine ⟨rfl, by decide, rfl⟩

/-- Claim C6 as amended: clean_qty, built on a regex search with no word
boundary, extracts the first digit run of the qty source even when it is
embedded in an alphanumeric word; any qty source holding a digit yields a
non-empty qty, and "Case500E" yields "500". -/
theorem claim_C6_amended :
    (∀ s : String, s.data.any Char.isDigit = true → clean_qty s ≠ "") ∧
    clean_qty "Case500E" = "500" :=
  ⟨fun s h => clean_qty_ne_empty s h, rfl⟩

/-- Witness for C6 as amended at the fused token of the spec. -/
theorem claim_C6_witness :
    ("Case500E" : String).data.any Char.isDigit = true ∧ clean_qty "Case500E" ≠ "" :=
  ⟨by decide, claim_C6_amended.1 "Case500E" (by decide)⟩

/-- Claim C7, counterexample: an emitted row carries exactly the four dict
keys line_number, sku, qty, price; none of the claimed field names
description, quantity, unit_price, extension, uom is among them. -/
theorem claim_C7_counterexample :
    parse_single_page "Item  Description  Qty  Unit Price\n12  Gadget  4  $7.50" =
      [⟨"12", "12", "4", "7.50"⟩] ∧
    (rowToDict ⟨"12", "12", "4", "7.50"⟩).map Prod.fst =
      ["line_number", "sku", "qty", "price"] ∧
    ("description" ∈ (rowToDict ⟨"12", "12", "4", "7.50"⟩).map Prod.fst → False) ∧
    ("quantity" ∈ (rowToDict ⟨"12", "12", "4", "7.50"⟩).map Prod.fst → False) ∧
    ("unit_price" ∈ (rowToDict ⟨"12", "12", "4", "7.50"⟩).map Prod.fst → False) ∧
    ("extension" ∈ (rowToDict ⟨"12", "12", "4", "7.50"⟩).map Prod.fst → False) ∧
    ("uom" ∈ (rowToDict ⟨"12", "12", "4", "7.50"⟩).map Prod.fst → False) := by
  refine ⟨rfl, rfl, by decide, by decide, by decide, by decide, by decide⟩

/-- Claim C7 as amended: every emitted row carries exactly the four string
fields line_number, sku, qty and price, in this order, each possibly
empty. -/
theorem claim_C7_amended (text : String) (r : Row)
    (_h : r ∈ parse_single_page text) :
    (rowToDict r).map Prod.fst = ["line_number", "sku", "qty", "price"] := rfl

/-- Witness for C7 as amended at a concrete page and row. -/
theorem claim_C7_witness :
    (⟨"12", "12", "4", "7.50"⟩ : Row) ∈
      parse_single_page "Item  Description  Qty  Unit Price\n12  Gadget  4  $7.50" ∧
    (rowToDict (⟨"12", "12", "4", "7.50"⟩ : Row)).map Prod.fst =
      ["line_number", "sku", "qty", "price"] :=
  ⟨by decide, claim_C7_amended "Item  Description  Qty  Unit Price\n12  Gadget  4  $7.50"
    ⟨"12", "12", "4", "7.50"⟩ (by decide)⟩

/-- Claim C8: the instrumented parsers, in which every Python list subscript
of the source is replaced by a checked access that surfaces IndexError,
succeed on every input, and an empty or all-blank document yields zero rows
rather than an error. -/
theorem claim_C8_no_raise :
    (∀ pages : List String, parse_multi_pageE pages = Except.ok (parse_multi_page pages)) ∧
    parse_single_page "" = [] ∧
    (∀ pages : List String, parse_multi_page (pages.map (fun _ => "")) = []) := by
  refine ⟨parse_multi_pageE_ok, rfl, ?_⟩
  intro pages
  induction pages with
  | nil => rfl
  | cons p rest ih =>
    show parse_multi_page ("" :: rest.map (fun _ => "")) = []
    rw [parse_multi_page, ih]
    rfl

/-- Claim C9: whenever the column strategy yields no rows under whatever
header was found (or none was found), parse_single_page equals the regex
fallback applied to all lines of the page, including those above the
header. -/
theorem claim_C9_fallback (text : String)
    (h : ∀ i cols, find_header (splitlinesPy text) = some (i, cols) →
      parse_with_columns (splitlinesPy text) i cols = []) :
    parse_single_page text = parse_by_regex (splitlinesPy text) := by
  simp only [parse_single_page]
  cases hf : find_header (splitlinesPy text) with
  | none => rfl
  | some hc =>
    dsimp only
    rw [h hc.1 hc.2 (by rw [hf])]
    simp

/-- Witness for C9: a page whose header is on line 1 with nothing below it;
the emitted row comes from line 0, above the header. -/
theorem claim_C9_witness :
    parse_single_page "1 WIDGET-A 10 $5.00\nItem  Description  Qty  Unit Price" =
      parse_by_regex (splitlinesPy "1 WIDGET-A 10 $5.00\nItem  Description  Qty  Unit Price") ∧
    parse_by_regex (splitlinesPy "1 WIDGET-A 10 $5.00\nItem  Description  Qty  Unit Price") =
      [⟨"1", "WIDGET-A", "10", "5.00"⟩] := by
  constructor
  · apply claim_C9_fallback
    intro i cols hf
    have h0 : find_header (splitlinesPy "1 WIDGET-A 10 $5.00\nItem  Description  Qty  Unit Price") =
        some (1, ["item", "desc", "qty", "unit"]) := rfl
    rw [h0] at hf
    have hp := Option.some.inj hf
    injection hp with hp1 hp2
    subst hp1
    subst hp2
    decide
  · rfl

/-- Claim C10: the qty field of every emitted row is empty or matches
\d+(\.\d+)?, since both strategies produce it through clean_qty. -/
theorem claim_C10_qty_shape (text : String) (r : Row)
    (h : r ∈ parse_single_page text) :
    r.qty = "" ∨ isQtyShape r.qty = true := by
  rcases mem_pssp text r h with ⟨cols, parts, hr⟩ | ⟨l, g1, g2, g3, g4, hg, hr⟩
  · rw [(rowFromParts_spec cols parts r hr).1]
    exact clean_qty_shape _
  · rw [hr]
    exact clean_qty_shape g3

/-- Witness for C10 at a concrete page and row. -/
theorem claim_C10_witness :
    (⟨"1", "WIDGET-A", "10", "5.00"⟩ : Row) ∈ parse_single_page "1 WIDGET-A 10 $5.00" ∧
    ((⟨"1", "WIDGET-A", "10", "5.00"⟩ : Row).qty = "" ∨
      isQtyShape (⟨"1", "WIDGET-A", "10", "5.00"⟩ : Row).qty = true) :=
  ⟨by decide, claim_C10_qty_shape "1 WIDGET-A 10 $5.00"
    ⟨"1", "WIDGET-A", "10", "5.00"⟩ (by decide)⟩

end POParser
